import Mathlib

/-!
# py-eacopy: verification of the transfer-engine specification

Shallow embedding of the py-eacopy Rust sources (src/bindings.rs,
src/eacopy/mod.rs, src/config.rs, src/error.rs, src/utils.rs) together with a
spec-modelled delta codec (the `deltaCopy` routine lives in the vendored EACopy
C++ library, outside the Rust sources; §4.4 of the design document describes
it).  Files are byte lists, the filesystem is a finite map from component
paths to nodes, and every effectful wrapper is a pure state-passing function
that additionally records the externally observable events (existence checks,
attribute reads, data transfers, retry sleeps) it performs.
-/

namespace PyEACopy

/-! ## Delta codec, modelled from the spec (§4.4 DeltaCodec)

Modelled from the spec: the actual encoder/decoder is `eacopy::deltaCopy` in
the vendored C++ library and is not part of the Rust sources; per the spec the
codec partitions the reference into fixed-size blocks, scans the target for
ranges matching a reference block (Copy operation) versus ranges transmitted
verbatim (Insert operation), and falls back to Insert-only transmission when
the reference is empty. -/

/-- One operation of a delta descriptor: copy a range of the reference, or
insert literal bytes. -/
inductive DeltaOp where
  | copy (refOffset len : Nat)
  | insert (bytes : List Nat)
deriving DecidableEq, Repr

/-- The `idx`-th fixed-size block of the reference (the final block may be
shorter than `blockSize`). -/
def blockAt (ref : List Nat) (blockSize idx : Nat) : List Nat :=
  (ref.drop (idx * blockSize)).take blockSize

/-- Number of blocks the reference is partitioned into. -/
def numBlocks (ref : List Nat) (blockSize : Nat) : Nat :=
  if blockSize = 0 then 0 else (ref.length + blockSize - 1) / blockSize

/-- Find a reference block that is a (nonempty) prefix of the remaining
target, returning its reference offset and length. -/
def findMatch (ref : List Nat) (blockSize : Nat) (tgt : List Nat) :
    Option (Nat × Nat) :=
  (List.range (numBlocks ref blockSize)).findSome? fun j =>
    let blk := blockAt ref blockSize j
    if blk ≠ [] ∧ tgt.take blk.length = blk then some (j * blockSize, blk.length)
    else none

/-- Streaming encoder loop: at each position either emit a Copy of a matching
reference block or Insert the next literal byte.  The fuel argument bounds the
number of emitted operations; when it runs out the remaining target is sent as
one literal Insert (with `fuel = tgt.length` this never happens, since every
step consumes at least one byte). -/
def encodeGo (ref : List Nat) (blockSize : Nat) : Nat → List Nat → List DeltaOp
  | _, [] => []
  | 0, t => [DeltaOp.insert t]
  | fuel+1, b :: rest =>
    match findMatch ref blockSize (b :: rest) with
    | some (off, len) =>
        DeltaOp.copy off len :: encodeGo ref blockSize fuel ((b :: rest).drop len)
    | none => DeltaOp.insert [b] :: encodeGo ref blockSize fuel rest

/-- Encode a target against a reference.  An empty reference falls back to a
single Insert of the whole target (full transmission). -/
def encode (ref tgt : List Nat) (blockSize : Nat) : List DeltaOp :=
  if ref.isEmpty then [DeltaOp.insert tgt]
  else encodeGo ref blockSize tgt.length tgt

/-- Replay one delta operation against the reference. -/
def applyOp (ref : List Nat) : DeltaOp → List Nat
  | .copy off len => (ref.drop off).take len
  | .insert bs => bs

/-- Replay a delta descriptor against the reference, reconstructing the
target. -/
def decode (ref : List Nat) (ops : List DeltaOp) : List Nat :=
  (ops.map (applyOp ref)).flatten

/-! ## Filesystem, error and configuration model (src/error.rs, src/config.rs)

Paths are lists of components (`Path::join` appends a component,
`Path::file_name` is the last component unless it is `..`, `Path::parent`
drops the last component).  A node is a regular file, carrying its size and an
abstract metadata value (timestamps/attributes; a freshly written file without
preserved metadata gets metadata `0`), or a directory.  Error constructors
mirror the variants of `error::Error` that the modelled code paths produce;
the human-readable message formatting is elided. -/

/-- Filesystem path, as a list of components. -/
abbrev FsPath := List String

/-- A filesystem node: regular file (size and abstract metadata) or
directory. -/
inductive Node where
  | file (size meta : Nat)
  | dir
deriving DecidableEq, Repr

/-- A filesystem: a finite association of paths to nodes (later insertions
shadow earlier entries). -/
structure FS where
  entries : List (FsPath × Node)
deriving DecidableEq, Repr

/-- Look up the node stored at a path. -/
def FS.find (fs : FS) (p : FsPath) : Option Node :=
  (fs.entries.find? (fun e => e.1 == p)).map (·.2)

/-- Store a node at a path, shadowing any previous entry. -/
def FS.insert (fs : FS) (p : FsPath) (n : Node) : FS :=
  ⟨(p, n) :: fs.entries⟩

/-- Does the path exist (as a file or a directory)?  Models
`Path::exists`. -/
def FS.pathExists (fs : FS) (p : FsPath) : Bool :=
  (fs.find p).isSome

/-- Is the path a regular file?  Models `Path::is_file`. -/
def FS.isFile (fs : FS) (p : FsPath) : Bool :=
  match fs.find p with
  | some (.file _ _) => true
  | _ => false

/-- Is the path a directory?  Models `Path::is_dir`. -/
def FS.isDir (fs : FS) (p : FsPath) : Bool :=
  match fs.find p with
  | some .dir => true
  | _ => false

/-- Last path component, models `Path::file_name` (which returns `None` when
the path is empty or ends in `..`). -/
def fileNameOf (p : FsPath) : Option String :=
  match p.getLast? with
  | none => none
  | some c => if c = ".." then none else some c

/-- Parent path, models `Path::parent`. -/
def parentOf (p : FsPath) : Option FsPath :=
  match p with
  | [] => none
  | _ => some p.dropLast

/-- Create a directory and all missing ancestors, models
`std::fs::create_dir_all`. -/
def FS.createDirAll (fs : FS) (p : FsPath) : FS :=
  (List.range p.length).foldl
    (fun acc k =>
      let pre := p.take (k + 1)
      if acc.pathExists pre then acc else acc.insert pre .dir)
    fs

/-- Reason attached to a `Network` error (message strings elided). -/
inductive NetReason where
  | createClientFailed
  | serverBusy
  | copyFailed
deriving DecidableEq, Repr

/-- Error variants of `error::Error` produced by the modelled code paths
(src/error.rs); payloads keep the path or reason, message formatting is
elided. -/
inductive Err where
  | io
  | fileNotFound (p : FsPath)
  | directoryNotFound (p : FsPath)
  | destinationExists (p : FsPath)
  | invalidArgument (p : FsPath)
  | network (r : NetReason)
  | encoding
deriving DecidableEq, Repr

/-- Decidable equality of `Except` results, so that concrete scenario runs
can be settled by `decide`. -/
instance instDecEqExcept {ε α : Type} [DecidableEq ε] [DecidableEq α] :
    DecidableEq (Except ε α) := fun x y =>
  match x, y with
  | .ok a, .ok b =>
      if h : a = b then isTrue (by rw [h])
      else isFalse (by intro hc; cases hc; exact h rfl)
  | .ok _, .error _ => isFalse (by intro hc; cases hc)
  | .error _, .ok _ => isFalse (by intro hc; cases hc)
  | .error e, .error f =>
      if h : e = f then isTrue (by rw [h])
      else isFalse (by intro hc; cases hc; exact h rfl)

/-- Externally observable events of a copy operation: the existence checks,
attribute reads, data transfers and retry sleeps it performs, in order. -/
inductive Event where
  | checkExists (p : FsPath)
  | getAttrs (p : FsPath)
  | copyData (src dst : FsPath) (preserveMetadata : Bool)
  | sleepRetry
deriving DecidableEq, Repr

/-- State threaded through the effectful wrappers: the filesystem plus the
event log. -/
structure St where
  fs : FS
  events : List Event
deriving DecidableEq, Repr

/-- Append an event to the log. -/
def St.emit (st : St) (e : Event) : St :=
  ⟨st.fs, st.events ++ [e]⟩

/-- Error handling strategies (src/config.rs `ErrorStrategy`). -/
inductive ErrorStrategy where
  | raise
  | retry
  | ignore
deriving DecidableEq, Repr

/-- Log levels (src/config.rs `LogLevel`). -/
inductive LogLevel where
  | none
  | error
  | warning
  | info
  | debug
deriving DecidableEq, Repr

/-- Configuration options (src/config.rs `Config`).  `retry_delay` is an
`f64` number of seconds in the source, represented as a rational; the
progress callback and the extra-options map are not represented (no modelled
code path reads them). -/
structure Config where
  threadCount : Nat
  compressionLevel : Nat
  bufferSize : Nat
  errorStrategy : ErrorStrategy
  retryCount : Nat
  retryDelay : Rat
  logLevel : LogLevel
  preserveMetadata : Bool
  followSymlinks : Bool
  dirsExistOk : Bool
deriving DecidableEq, Repr

/-- Default configuration (src/config.rs `Config::default`); the thread count
comes from `num_cpus::get()` and is passed in. -/
def Config.default (numCpus : Nat) : Config :=
  { threadCount := numCpus
    compressionLevel := 0
    bufferSize := 8 * 1024 * 1024
    errorStrategy := .raise
    retryCount := 3
    retryDelay := 1
    logLevel := .error
    preserveMetadata := true
    followSymlinks := false
    dirsExistOk := false }

/-! ## Safe FFI wrappers (src/bindings.rs) -/

/-- Buffer size tier chosen by source size (src/bindings.rs lines 58-68):
64 KB below 1 MB, 1 MB below 100 MB, 8 MB above. -/
def bufferSizeFor (size : Nat) : Nat :=
  if size < 1024 * 1024 then 64 * 1024
  else if size < 100 * 1024 * 1024 then 1024 * 1024
  else 8 * 1024 * 1024

/-- Wrapper `copy_file` (src/bindings.rs lines 28-92): read the source's
attributes (failing with the mapped error code when the source is missing),
pick the buffer tier, then invoke the external `eacopy::copyFile`, which on
success transfers every byte of the source to the destination (modelled: the
C++ routine is outside the Rust sources) and reports the byte count.
Metadata is carried over exactly when the `COPY_ATTRIBUTES|COPY_TIMESTAMPS`
flags are set, that is when `preserve_metadata` holds; an attempt to copy a
directory this way fails inside the external routine with an I/O error. -/
def copy_file (st : St) (source dest : FsPath) (preserveMetadata : Bool) :
    St × Except Err Nat :=
  let st := st.emit (.getAttrs source)
  match st.fs.find source with
  | some (.file size meta) =>
      let _bufferSize := bufferSizeFor size
      let st := st.emit (.copyData source dest preserveMetadata)
      (⟨st.fs.insert dest (.file size (if preserveMetadata then meta else 0)),
          st.events⟩,
        .ok size)
  | some .dir => (st, .error .io)
  | none => (st, .error (.fileNotFound source))

/-- Wrapper `batch_copy` (src/bindings.rs lines 341-350): copy each pair in
order, aborting at the first failure (`?`), and return the accumulated byte
total. -/
def batch_copy (st : St) (filePairs : List (FsPath × FsPath))
    (preserveMetadata : Bool) : St × Except Err Nat :=
  match filePairs with
  | [] => (st, .ok 0)
  | (src, dst) :: rest =>
    match copy_file st src dst preserveMetadata with
    | (st', .ok bytes) =>
      match batch_copy st' rest preserveMetadata with
      | (st'', .ok total) => (st'', .ok (bytes + total))
      | (st'', .error e) => (st'', .error e)
    | (st', .error e) => (st', .error e)

/-- Outcome of `eacopy::sendReadFileCommand` (`ReadFileResult` in the C++
headers). -/
inductive ReadFileResult where
  | success
  | serverBusy
  | otherFail
deriving DecidableEq, Repr

/-- One server response: the result code and the byte count the command
reported as read. -/
structure ServerResponse where
  result : ReadFileResult
  outRead : Nat
deriving DecidableEq, Repr

/-- File branch of the wrapper `copy_with_server` (src/bindings.rs lines
220-273), with the remote peer modelled as a map from submission number to
response.  After reading the source's attributes the wrapper issues exactly
one `sendReadFileCommand` (submission number 0) and matches its result:
`Success` yields the reported byte count, `ServerBusy` and every other result
are returned as `Network` errors.  The directory branch (recursive remote
enumeration, lines 274-330) is exercised by no claim and is not modelled. -/
def copy_with_server_file (st : St) (source dest : FsPath)
    (server : Nat → ServerResponse) : St × Except Err Nat :=
  let st := st.emit (.getAttrs source)
  match st.fs.find source with
  | some (.file _ _) =>
    let resp := server 0
    match resp.result with
    | .success => (st, .ok resp.outRead)
    | .serverBusy => (st, .error (.network .serverBusy))
    | .otherFail => (st, .error (.network .copyFailed))
  | _ => (st, .error (.fileNotFound source))

/-- Wrapper `delta_copy` (src/bindings.rs lines 468-563): open the source for
reading, the destination for writing (creating or truncating it), and the
reference for reading; any failed open is returned as an I/O error.  With all
three open, the external `eacopy::deltaCopy` encodes the source against the
reference and writes the destination (modelled: on success the destination
holds the source's bytes) and the wrapper returns the source size.  The
`compression_level` argument is accepted but never forwarded to the external
call in the source. -/
def delta_copy_bindings (st : St) (source dest reference : FsPath)
    (_compressionLevel : Nat) : St × Except Err Nat :=
  match st.fs.find source with
  | some (.file srcSize _) =>
    let st : St := ⟨st.fs.insert dest (.file 0 0), st.events⟩
    match st.fs.find reference with
    | some (.file _ _) =>
        (⟨st.fs.insert dest (.file srcSize 0), st.events⟩, .ok srcSize)
    | _ => (st, .error .io)
  | _ => (st, .error .io)

/-- Source directory contents handed to `copy_tree`, standing for what
`findFirstFile`/`findNextFile` enumerate under the source root (`.` and `..`
entries excluded).  Symbolic links do not occur in the model, so the
symlink branch of the loop is dead. -/
inductive Tree where
  | file (size meta : Nat)
  | dir (children : List (String × Tree))

mutual

/-- Wrapper `copy_tree` (src/bindings.rs lines 95-171): if the destination
does not exist it is created; if it exists and `dirs_exist_ok` is not set the
call fails with `DestinationExists` before any entry is copied; otherwise
every enumerated child is processed in order. -/
def copy_tree (st : St) (source : FsPath) (children : List (String × Tree))
    (dest : FsPath) (symlinks ignoreDanglingSymlinks dirsExistOk : Bool) :
    St × Except Err Nat :=
  if ¬ st.fs.pathExists dest then
    copy_tree_children ⟨st.fs.insert dest .dir, st.events⟩ source children dest
      symlinks ignoreDanglingSymlinks dirsExistOk
  else if ¬ dirsExistOk then (st, .error (.destinationExists dest))
  else copy_tree_children st source children dest symlinks
    ignoreDanglingSymlinks dirsExistOk

/-- Enumeration loop of `copy_tree` (src/bindings.rs lines 131-167): a child
file is copied with metadata preserved (the external `copyFile` transfers the
enumerated size; modelled directly since the child was just enumerated), a
child directory is copied by a recursive `copy_tree` call; the first failure
aborts the loop and byte counts accumulate. -/
def copy_tree_children (st : St) (source : FsPath)
    (items : List (String × Tree)) (dest : FsPath)
    (symlinks ignoreDanglingSymlinks dirsExistOk : Bool) :
    St × Except Err Nat :=
  match items with
  | [] => (st, .ok 0)
  | (name, .file size meta) :: rest =>
    let st := st.emit (.copyData (source ++ [name]) (dest ++ [name]) true)
    let st : St := ⟨st.fs.insert (dest ++ [name]) (.file size meta), st.events⟩
    match copy_tree_children st source rest dest symlinks
        ignoreDanglingSymlinks dirsExistOk with
    | (st', .ok total) => (st', .ok (size + total))
    | (st', .error e) => (st', .error e)
  | (name, .dir sub) :: rest =>
    match copy_tree st (source ++ [name]) sub (dest ++ [name]) symlinks
        ignoreDanglingSymlinks dirsExistOk with
    | (st', .ok bytes) =>
      match copy_tree_children st' source rest dest symlinks
          ignoreDanglingSymlinks dirsExistOk with
      | (st'', .ok total) => (st'', .ok (bytes + total))
      | (st'', .error e) => (st'', .error e)
    | (st', .error e) => (st', .error e)

end

/-! ## High-level operations (src/eacopy/mod.rs `EACopy`) -/

namespace EACopy

/-- Resolve the effective destination path of `EACopy::copy`/`copy2`
(src/eacopy/mod.rs lines 81-93 and 126-138): when the destination is a
directory the file lands inside it under the source's file name, and a source
without a file name is an `InvalidArgument` error; otherwise the destination
is used as given. -/
def resolveDst (fs : FS) (src dst : FsPath) : Except Err FsPath :=
  if fs.isDir dst then
    match fileNameOf src with
    | some name => .ok (dst ++ [name])
    | none => .error (.invalidArgument src)
  else .ok dst

/-- Create the destination's parent directory when it is missing
(src/eacopy/mod.rs lines 95-100). -/
def ensureParent (st : St) (dstPath : FsPath) : St :=
  match parentOf dstPath with
  | some parent =>
      if st.fs.pathExists parent then st else ⟨st.fs.createDirAll parent, st.events⟩
  | none => st

/-- Method `EACopy::copy` (src/eacopy/mod.rs lines 64-106): check the source
exists, reject a directory source with `InvalidArgument`, resolve the
destination, create its parent on demand, then call the `copy_file` wrapper
without metadata preservation, discarding its byte count (the method returns
`Result<()>`).  The configuration is taken but no field of it is read. -/
def copy (_config : Config) (st : St) (src dst : FsPath) :
    St × Except Err Unit :=
  let st := st.emit (.checkExists src)
  if ¬ st.fs.pathExists src then (st, .error (.fileNotFound src))
  else if st.fs.isDir src then (st, .error (.invalidArgument src))
  else
    match resolveDst st.fs src dst with
    | .error e => (st, .error e)
    | .ok dstPath =>
      let st := ensureParent st dstPath
      let r := copy_file st src dstPath false
      (r.1, r.2.map fun _ => ())

/-- Method `EACopy::copy2` (src/eacopy/mod.rs lines 109-151): identical to
`copy` but the `copy_file` wrapper is called with metadata preservation. -/
def copy2 (_config : Config) (st : St) (src dst : FsPath) :
    St × Except Err Unit :=
  let st := st.emit (.checkExists src)
  if ¬ st.fs.pathExists src then (st, .error (.fileNotFound src))
  else if st.fs.isDir src then (st, .error (.invalidArgument src))
  else
    match resolveDst st.fs src dst with
    | .error e => (st, .error e)
    | .ok dstPath =>
      let st := ensureParent st dstPath
      let r := copy_file st src dstPath true
      (r.1, r.2.map fun _ => ())

/-- Method `EACopy::batch_copy` (src/eacopy/mod.rs lines 220-234): forward
the pairs to the `batch_copy` wrapper without metadata preservation and
discard the byte total.  The configuration — including its error strategy and
retry fields — is never consulted. -/
def batch_copy (_config : Config) (st : St)
    (filePairs : List (FsPath × FsPath)) : St × Except Err Unit :=
  let r := PyEACopy.batch_copy st filePairs false
  (r.1, r.2.map fun _ => ())

/-- Method `EACopy::delta_copy` (src/eacopy/mod.rs lines 297-342): check that
the source exists, that the reference exists, and that both are regular
files; create the destination's parent on demand; then call the wrapper with
the configured compression level, discarding its byte count. -/
def delta_copy (config : Config) (st : St) (src dst reference : FsPath) :
    St × Except Err Unit :=
  let st := st.emit (.checkExists src)
  if ¬ st.fs.pathExists src then (st, .error (.fileNotFound src))
  else
    let st := st.emit (.checkExists reference)
    if ¬ st.fs.pathExists reference then (st, .error (.fileNotFound reference))
    else if ¬ (st.fs.isFile src && st.fs.isFile reference) then
      (st, .error (.invalidArgument src))
    else
      let st := ensureParent st dst
      let r := delta_copy_bindings st src dst reference config.compressionLevel
      (r.1, r.2.map fun _ => ())

end EACopy

/-! ## Wide-string conversion (src/utils.rs) -/

/-- UTF-16 code units of one character (`OsStrExt::encode_wide` emits these):
one unit for the basic multilingual plane, a surrogate pair above it. -/
def encodeUtf16Char (c : Char) : List Nat :=
  let n := c.toNat
  if n < 0x10000 then [n]
  else [0xD800 + (n - 0x10000) / 0x400, 0xDC00 + (n - 0x10000) % 0x400]

/-- Function `to_wide_string` (src/utils.rs lines 8-14): UTF-16 code units of
the string followed by a terminating NUL unit. -/
def to_wide_string (s : List Char) : List Nat :=
  (s.map encodeUtf16Char).flatten ++ [0]

/-- Decode a UTF-16 code-unit sequence back to characters; an unpaired
surrogate makes the conversion fail (on Windows, `OsString::into_string`
rejects such a wide string). -/
def decodeUtf16 : List Nat → Option (List Char)
  | [] => some []
  | u :: rest =>
    if u < 0xD800 ∨ 0xE000 ≤ u then
      (decodeUtf16 rest).map (fun cs => Char.ofNat u :: cs)
    else if u < 0xDC00 then
      match rest with
      | [] => none
      | l :: rest' =>
        if 0xDC00 ≤ l ∧ l < 0xE000 then
          (decodeUtf16 rest').map
            (fun cs => Char.ofNat (0x10000 + (u - 0xD800) * 0x400 + (l - 0xDC00)) :: cs)
        else none
    else none
termination_by structural w => w

/-- Function `from_wide_string` (src/utils.rs lines 17-23): truncate at the
first NUL unit, then decode; a failed decode is the `Encoding` error,
represented here as `none`. -/
def from_wide_string (wide : List Nat) : Option (List Char) :=
  decodeUtf16 (wide.takeWhile (fun u => u != 0))

/-! ## Concrete fixtures used by the scenario theorems -/

/-- Configuration with the `Ignore` error strategy selected. -/
def cfgIgnore : Config := { Config.default 4 with errorStrategy := .ignore }

/-- Configuration with the `Retry` error strategy and a retry count of 2. -/
def cfgRetry2 : Config :=
  { Config.default 4 with errorStrategy := .retry, retryCount := 2 }

/-- Filesystem for the batch scenario: the sources of pairs 1, 2, 4 and 5
exist, pair 3's source `s3` does not. -/
def fsBatch : FS :=
  ⟨[(["s1"], .file 1 0), (["s2"], .file 2 0), (["s4"], .file 4 0),
    (["s5"], .file 5 0)]⟩

/-- The batch of 5 (src, dst) pairs; pair 3's source is the missing `s3`. -/
def batchPairs : List (FsPath × FsPath) :=
  [(["s1"], ["d1"]), (["s2"], ["d2"]), (["s3"], ["d3"]), (["s4"], ["d4"]),
    (["s5"], ["d5"])]

/-- Delta-copy scenario state: the source exists, the reference `reff` does
not. -/
def stDelta : St := ⟨⟨[(["srcf"], .file 3 7)]⟩, []⟩

/-- Server-copy scenario state: the source file `f` exists. -/
def stSrv : St := ⟨⟨[(["f"], .file 9 0)]⟩, []⟩

/-- Server that answers the first submission with `ServerBusy` and every
later submission with success and an out-read count of 42. -/
def busyThenSuccess : Nat → ServerResponse :=
  fun n => if n = 0 then ⟨.serverBusy, 0⟩ else ⟨.success, 42⟩

/-- Filesystem holding one 10 MB (10485760-byte) file. -/
def fs10 : FS := ⟨[(["big"], .file 10485760 0)]⟩

/-- Filesystem holding one 5-byte file with metadata value 3. -/
def fsFive : FS := ⟨[(["a"], .file 5 3)]⟩

/-- Filesystem holding one 7-byte file with metadata value 3. -/
def fsSeven : FS := ⟨[(["a"], .file 7 3)]⟩

/-- Tree-copy scenario state: the destination directory `dstdir` already
exists, and `sdir` is a directory source. -/
def stTree : St := ⟨⟨[(["dstdir"], .dir), (["sdir"], .dir)]⟩, []⟩

/-! ## Codec lemmas -/

/-- A successful match really is a prefix of the remaining target, it is
nonempty, and the corresponding reference range reproduces it. -/
theorem findMatch_spec {ref : List Nat} {blockSize : Nat} {tgt : List Nat}
    {off len : Nat} (h : findMatch ref blockSize tgt = some (off, len)) :
    (ref.drop off).take len = tgt.take len ∧ 1 ≤ len ∧ len ≤ tgt.length := by
  obtain ⟨j, -, hj⟩ := List.exists_of_findSome?_eq_some h
  simp only at hj
  split at hj
  · rename_i hcond
    obtain ⟨hne, hpre⟩ := hcond
    obtain ⟨hoff, hlen⟩ := Prod.mk.injEq .. ▸ Option.some.injEq .. ▸ hj
    subst hoff hlen
    refine ⟨?_, ?_, ?_⟩
    · have htake : (ref.drop (j * blockSize)).take (blockAt ref blockSize j).length
          = blockAt ref blockSize j := by
        have hle : (blockAt ref blockSize j).length ≤ blockSize := by
          simp [blockAt]
        calc (ref.drop (j * blockSize)).take (blockAt ref blockSize j).length
            = ((ref.drop (j * blockSize)).take blockSize).take
                (blockAt ref blockSize j).length := by
              rw [List.take_take, Nat.min_eq_left hle]
          _ = blockAt ref blockSize j := by
              simp [blockAt]
      rw [htake, hpre]
    · cases hblk : blockAt ref blockSize j with
      | nil => exact absurd hblk hne
      | cons a l => simp [hblk]
    · have := congrArg List.length hpre
      simp only [List.length_take] at this
      omega
  · exact absurd hj (by simp)

/-- Replaying the encoder loop's output reconstructs the target, for any
fuel. -/
theorem decode_encodeGo (ref : List Nat) (blockSize : Nat) :
    ∀ fuel tgt, decode ref (encodeGo ref blockSize fuel tgt) = tgt := by
  intro fuel
  induction fuel with
  | zero =>
    intro tgt
    cases tgt with
    | nil => simp [encodeGo, decode]
    | cons b rest => simp [encodeGo, decode, applyOp]
  | succ k ih =>
    intro tgt
    cases tgt with
    | nil => simp [encodeGo, decode]
    | cons b rest =>
      simp only [encodeGo]
      cases hm : findMatch ref blockSize (b :: rest) with
      | none =>
        have h := ih rest
        simp only [decode] at h
        simp only [decode, List.map_cons, List.flatten_cons, applyOp]
        rw [h]
        rfl
      | some p =>
        obtain ⟨off, len⟩ := p
        obtain ⟨hpre, -, -⟩ := findMatch_spec hm
        have h := ih ((b :: rest).drop len)
        simp only [decode] at h
        simp only [decode, List.map_cons, List.flatten_cons, applyOp]
        rw [hpre, h, List.take_append_drop]

/-- C1: for every reference R, target F and block size, replaying the delta
produced by `encode` against R reconstructs F exactly —
`decode R (encode R F) = F` bit-for-bit; the universal quantification covers
an empty reference, a reference identical to the target and a reference
sharing no content with the target. -/
theorem delta_roundtrip (ref tgt : List Nat) (blockSize : Nat) :
    decode ref (encode ref tgt blockSize) = tgt := by
  unfold encode
  split
  · simp [decode, applyOp]
  · exact decode_encodeGo ref blockSize tgt.length tgt

/-! ## Filesystem lemmas -/

/-- Looking up the path just inserted yields the inserted node. -/
theorem FS.find_insert_self (fs : FS) (p : FsPath) (n : Node) :
    (fs.insert p n).find p = some n := by
  simp [FS.find, FS.insert, List.find?_cons]

/-- Inserting at one path does not change lookups at another. -/
theorem FS.find_insert_ne (fs : FS) (p q : FsPath) (n : Node) (h : q ≠ p) :
    (fs.insert p n).find q = fs.find q := by
  simp only [FS.find, FS.insert, List.find?_cons]
  have : ((p, n).1 == q) = false := by
    simp only [beq_eq_false_iff_ne, ne_eq]
    exact fun hpq => h hpq.symm
  rw [this]

/-- A path with a node exists. -/
theorem FS.pathExists_of_find {fs : FS} {p : FsPath} {n : Node}
    (h : fs.find p = some n) : fs.pathExists p = true := by
  simp [FS.pathExists, h]

/-- A path holding a file is not a directory. -/
theorem FS.isDir_eq_false_of_file {fs : FS} {p : FsPath} {sz m : Nat}
    (h : fs.find p = some (.file sz m)) : fs.isDir p = false := by
  simp [FS.isDir, h]

/-- A directory path exists. -/
theorem FS.pathExists_of_isDir {fs : FS} {p : FsPath}
    (h : fs.isDir p = true) : fs.pathExists p = true := by
  unfold FS.isDir at h
  unfold FS.pathExists
  cases hf : fs.find p with
  | none => rw [hf] at h; simp at h
  | some n => simp

/-- Creating directories preserves every existing lookup. -/
theorem FS.find_createDirAll {q p : FsPath} {n : Node} :
    ∀ (ks : List Nat) (fs : FS), fs.find p = some n →
      (ks.foldl
        (fun acc k =>
          let pre := q.take (k + 1)
          if acc.pathExists pre then acc else acc.insert pre .dir)
        fs).find p = some n := by
  intro ks
  induction ks with
  | nil => intro fs h; exact h
  | cons k rest ih =>
    intro fs h
    simp only [List.foldl_cons]
    by_cases hpre : fs.pathExists (q.take (k + 1)) = true
    · simp only [hpre, if_true]
      exact ih fs h
    · simp only [hpre, if_false, Bool.false_eq_true]
      apply ih
      rw [FS.find_insert_ne]
      · exact h
      · intro hpq
        subst hpq
        rw [FS.pathExists_of_find h] at hpre
        exact hpre rfl

/-- `createDirAll` preserves every existing lookup. -/
theorem FS.find_createDirAll_of_find {fs : FS} {q p : FsPath} {n : Node}
    (h : fs.find p = some n) : (fs.createDirAll q).find p = some n :=
  FS.find_createDirAll (List.range q.length) fs h

/-- `ensureParent` never touches an existing entry. -/
theorem EACopy.ensureParent_find {st : St} {d p : FsPath} {n : Node}
    (h : st.fs.find p = some n) : (EACopy.ensureParent st d).fs.find p = some n := by
  unfold EACopy.ensureParent
  cases parentOf d with
  | none => exact h
  | some parent =>
    simp only
    by_cases hex : st.fs.pathExists parent = true
    · simp only [hex, if_true]; exact h
    · simp only [hex, if_false, Bool.false_eq_true]
      exact FS.find_createDirAll_of_find h

/-! ## Batch copy and retry (claims on src/eacopy/mod.rs, src/bindings.rs) -/

/-- C2 counterexample: for the batch of 5 pairs with pair 3's source missing,
under the `Ignore` strategy, `batch_copy` returns the pair-3 error as the
overall result and pairs 4 and 5 are never copied — refuting that pairs 4 and
5 succeed and that a failure-record list is produced. -/
theorem batch_ignore_counterexample :
    (EACopy.batch_copy cfgIgnore ⟨fsBatch, []⟩ batchPairs).2
        = .error (.fileNotFound ["s3"])
    ∧ (EACopy.batch_copy cfgIgnore ⟨fsBatch, []⟩ batchPairs).1.fs.find ["d4"]
        = none
    ∧ (EACopy.batch_copy cfgIgnore ⟨fsBatch, []⟩ batchPairs).1.fs.find ["d5"]
        = none := by
  decide

/-- C2 amended: `batch_copy` applies no error strategy and aborts at the
first failing pair — pairs 1 and 2 are copied, the pair-3 `FileNotFound`
error is the single returned result (there is no failure-record list), and
pairs 4 and 5 are never attempted. -/
theorem batch_abort_at_first_failure :
    (EACopy.batch_copy cfgIgnore ⟨fsBatch, []⟩ batchPairs).2
        = .error (.fileNotFound ["s3"])
    ∧ (EACopy.batch_copy cfgIgnore ⟨fsBatch, []⟩ batchPairs).1.fs.find ["d1"]
        = some (.file 1 0)
    ∧ (EACopy.batch_copy cfgIgnore ⟨fsBatch, []⟩ batchPairs).1.fs.find ["d2"]
        = some (.file 2 0)
    ∧ (EACopy.batch_copy cfgIgnore ⟨fsBatch, []⟩ batchPairs).1.fs.find ["d3"]
        = none
    ∧ (EACopy.batch_copy cfgIgnore ⟨fsBatch, []⟩ batchPairs).1.fs.find ["d4"]
        = none
    ∧ (EACopy.batch_copy cfgIgnore ⟨fsBatch, []⟩ batchPairs).1.fs.find ["d5"]
        = none := by
  decide

/-- C3 counterexample: with `error_strategy = Retry` and `retry_count = 2`, a
copy from a missing source produces a single existence check — not three
attempts — no retry sleeps, and the failure is escalated immediately. -/
theorem retry_counterexample :
    (EACopy.copy cfgRetry2 ⟨⟨[]⟩, []⟩ ["missing"] ["out"]).2
        = .error (.fileNotFound ["missing"])
    ∧ (EACopy.copy cfgRetry2 ⟨⟨[]⟩, []⟩ ["missing"] ["out"]).1.events
        = [.checkExists ["missing"]]
    ∧ (EACopy.copy cfgRetry2 ⟨⟨[]⟩, []⟩ ["missing"] ["out"]).1.events.count
        (.checkExists ["missing"]) ≠ 3
    ∧ (EACopy.copy cfgRetry2 ⟨⟨[]⟩, []⟩ ["missing"] ["out"]).1.events.count
        .sleepRetry = 0 := by
  decide

/-- C3 amended: whatever the configured error strategy and retry count,
`EACopy::copy` with a nonexistent source performs exactly one attempt — a
single existence check, no retry sleeps — and escalates `FileNotFound`
immediately; no retry logic exists. -/
theorem copy_no_retry (cfg : Config) (st : St) (src dst : FsPath)
    (h : st.fs.pathExists src = false) :
    EACopy.copy cfg st src dst
      = (st.emit (.checkExists src), .error (.fileNotFound src)) := by
  unfold EACopy.copy
  simp [St.emit, h]

/-- C3 amended, witnessed at a concrete input: the Retry/2 configuration and
a missing source yield one attempt and an immediate `FileNotFound`. -/
theorem copy_no_retry_witness :
    EACopy.copy cfgRetry2 ⟨⟨[]⟩, []⟩ ["m"] ["o"]
      = (⟨⟨[]⟩, [.checkExists ["m"]]⟩, .error (.fileNotFound ["m"])) :=
  copy_no_retry cfgRetry2 ⟨⟨[]⟩, []⟩ ["m"] ["o"] (by decide)

/-! ## Delta copy fallback (claim on src/eacopy/mod.rs `delta_copy`) -/

/-- C4 counterexample: with a missing reference file, `delta_copy` fails
outright with `FileNotFound` and the destination is never written — refuting
the claimed fallback to Insert-only full transmission. -/
theorem delta_fallback_counterexample :
    (EACopy.delta_copy (Config.default 4) stDelta ["srcf"] ["dstf"] ["reff"]).2
        = .error (.fileNotFound ["reff"])
    ∧ (EACopy.delta_copy (Config.default 4) stDelta ["srcf"] ["dstf"]
        ["reff"]).1.fs.find ["dstf"] = none := by
  decide

/-- C4 amended: if the reference file does not exist, `delta_copy` fails with
`FileNotFound` for the reference, leaving the filesystem untouched; the Rust
layer performs no fallback to full transmission. -/
theorem delta_no_fallback (cfg : Config) (st : St) (src dst reference : FsPath)
    (hsrc : st.fs.pathExists src = true)
    (href : st.fs.pathExists reference = false) :
    EACopy.delta_copy cfg st src dst reference
      = ((st.emit (.checkExists src)).emit (.checkExists reference),
          .error (.fileNotFound reference)) := by
  unfold EACopy.delta_copy
  simp [St.emit, hsrc, href]

/-- C4 amended, witnessed at a concrete input. -/
theorem delta_no_fallback_witness :
    EACopy.delta_copy (Config.default 4) stDelta ["srcf"] ["dstf2"] ["reff2"]
      = ((stDelta.emit (.checkExists ["srcf"])).emit (.checkExists ["reff2"]),
          .error (.fileNotFound ["reff2"])) :=
  delta_no_fallback (Config.default 4) stDelta ["srcf"] ["dstf2"] ["reff2"]
    (by decide) (by decide)

/-! ## Server busy handling (claim on src/bindings.rs `copy_with_server`) -/

/-- C5 counterexample: when the server answers busy on submission 1 and
success (42 bytes) on submission 2, `copy_with_server` returns a `Network`
error — it does not resubmit and does not report the attempt-2 byte
count. -/
theorem server_busy_counterexample :
    (copy_with_server_file stSrv ["f"] ["g"] busyThenSuccess).2
        = .error (.network .serverBusy)
    ∧ (copy_with_server_file stSrv ["f"] ["g"] busyThenSuccess).2
        ≠ .ok 42 := by
  decide

/-- C5 amended: a `ServerBusy` response to the single submitted read-file
command is mapped to a `Network` error and returned to the caller; the Rust
layer never resubmits (any retrying is internal to the external client
library). -/
theorem server_busy_is_error (st : St) (source dest : FsPath)
    (server : Nat → ServerResponse) (sz m : Nat)
    (hsrc : st.fs.find source = some (.file sz m))
    (hbusy : (server 0).result = .serverBusy) :
    (copy_with_server_file st source dest server).2
      = .error (.network .serverBusy) := by
  unfold copy_with_server_file
  simp [St.emit, hsrc, hbusy]

/-- C5 amended, witnessed at a concrete input. -/
theorem server_busy_is_error_witness :
    (copy_with_server_file stSrv ["f"] ["g2"] busyThenSuccess).2
      = .error (.network .serverBusy) :=
  server_busy_is_error stSrv ["f"] ["g2"] busyThenSuccess 9 0 (by decide)
    (by decide)

/-! ## Buffer tiers (claim on src/bindings.rs `copy_file`) -/

/-- C6 counterexample: a 10 MB source selects the 1 MB buffer — the middle
tier of the scheme — not the several-MB large tier the claim names. -/
theorem buffer_tier_counterexample :
    bufferSizeFor 10485760 = 1024 * 1024
    ∧ bufferSizeFor 10485760 ≠ 8 * 1024 * 1024 := by
  decide

/-- C6 amended: copying a 10 MB file selects the medium (1 MB) buffer tier
and returns `bytes_transferred = 10485760`. -/
theorem ten_mb_copy_medium_tier :
    bufferSizeFor 10485760 = 1024 * 1024
    ∧ (copy_file ⟨fs10, []⟩ ["big"] ["out"] false).2 = .ok 10485760 := by
  decide

/-! ## Return value of copy (claim on src/eacopy/mod.rs `copy`) -/

/-- C7 counterexample: two successful `copy` invocations transferring 5 and 7
bytes both return the unit value — the result carries no byte count — while
the underlying `copy_file` wrapper reports 5 and 7 respectively. -/
theorem copy_unit_counterexample :
    (EACopy.copy (Config.default 4) ⟨fsFive, []⟩ ["a"] ["b"]).2 = .ok ()
    ∧ (EACopy.copy (Config.default 4) ⟨fsSeven, []⟩ ["a"] ["b"]).2 = .ok ()
    ∧ (copy_file ⟨fsFive, []⟩ ["a"] ["b"] false).2 = .ok 5
    ∧ (copy_file ⟨fsSeven, []⟩ ["a"] ["b"] false).2 = .ok 7 := by
  decide

/-- C7 amended: on every successful invocation, `copy` returns unit — the
byte count computed by the underlying `copy_file` wrapper is discarded — and
the destination is written without preserved metadata. -/
theorem copy_returns_unit (cfg : Config) (st : St) (src dst : FsPath)
    (sz m : Nat) (hsrc : st.fs.find src = some (.file sz m))
    (hdst : st.fs.isDir dst = false) :
    (EACopy.copy cfg st src dst).2 = .ok ()
    ∧ (EACopy.copy cfg st src dst).1.fs.find dst = some (.file sz 0) := by
  have hex : st.fs.pathExists src = true := FS.pathExists_of_find hsrc
  have hnd : st.fs.isDir src = false := FS.isDir_eq_false_of_file hsrc
  unfold EACopy.copy EACopy.resolveDst
  simp only [St.emit, hex, hnd, hdst, Bool.not_true, Bool.false_eq_true,
    if_false, Bool.not_false]
  have hsrc1 : (EACopy.ensureParent ⟨st.fs, st.events ++ [.checkExists src]⟩
      dst).fs.find src = some (.file sz m) :=
    @EACopy.ensureParent_find ⟨st.fs, st.events ++ [.checkExists src]⟩ dst src
      (.file sz m) hsrc
  simp [copy_file, St.emit, hsrc1, FS.find_insert_self, Except.map]

/-- C7 amended, witnessed at a concrete input. -/
theorem copy_returns_unit_witness :
    (EACopy.copy (Config.default 4) ⟨fsFive, []⟩ ["a"] ["c"]).2 = .ok ()
    ∧ (EACopy.copy (Config.default 4) ⟨fsFive, []⟩ ["a"] ["c"]).1.fs.find
        ["c"] = some (.file 5 0) :=
  copy_returns_unit (Config.default 4) ⟨fsFive, []⟩ ["a"] ["c"] 5 3
    (by decide) (by decide)

/-! ## Destination guards (claims on src/bindings.rs `copy_tree` and
src/eacopy/mod.rs `copy`) -/

/-- Appending one component makes the original path the parent. -/
theorem parentOf_concat (p : FsPath) (name : String) :
    parentOf (p ++ [name]) = some p := by
  cases hp : p ++ [name] with
  | nil => simp at hp
  | cons a l =>
    show some ((a :: l).dropLast) = some p
    rw [← hp]
    simp

/-- C8: a `copy_tree` onto an existing destination, invoked without
`dirs_exist_ok`, fails with `DestinationExists` leaving the state untouched
(no entry copied); and a single-file `copy` whose source is a directory fails
with `InvalidArgument`. -/
theorem tree_guard_and_dir_source (st : St) (source dst : FsPath)
    (children : List (String × Tree)) (symlinks ignoreDangling : Bool)
    (cfg : Config) (src d2 : FsPath)
    (hdst : st.fs.pathExists dst = true) (hsrc : st.fs.isDir src = true) :
    copy_tree st source children dst symlinks ignoreDangling false
        = (st, .error (.destinationExists dst))
    ∧ EACopy.copy cfg st src d2
        = (st.emit (.checkExists src), .error (.invalidArgument src)) := by
  constructor
  · unfold copy_tree
    simp [hdst]
  · have hex := FS.pathExists_of_isDir hsrc
    unfold EACopy.copy
    simp [St.emit, hex, hsrc]

/-- C8, witnessed at a concrete input: an existing destination directory and
a directory source. -/
theorem tree_guard_witness :
    copy_tree stTree ["srcroot"] [("x", .file 1 0)] ["dstdir"] false false
        false = (stTree, .error (.destinationExists ["dstdir"]))
    ∧ EACopy.copy (Config.default 4) stTree ["sdir"] ["elsewhere"]
        = (stTree.emit (.checkExists ["sdir"]),
            .error (.invalidArgument ["sdir"])) :=
  tree_guard_and_dir_source stTree ["srcroot"] ["dstdir"] [("x", .file 1 0)]
    false false (Config.default 4) ["sdir"] ["elsewhere"] (by decide)
    (by decide)

/-! ## Directory destinations of copy and copy2 (claim on
src/eacopy/mod.rs lines 81-93 and 126-138) -/

/-- C9: when the destination is an existing directory, `copy` and `copy2`
place the file at the destination joined with the source's file name (`copy2`
preserving the metadata, `copy` not), and a source without a file name makes
both fail with `InvalidArgument`. -/
theorem copy_into_directory (cfg : Config) (st : St) (src dst : FsPath)
    (sz m : Nat) (hsrc : st.fs.find src = some (.file sz m))
    (hdst : st.fs.isDir dst = true) :
    (∀ name, fileNameOf src = some name →
      (EACopy.copy cfg st src dst).2 = .ok ()
      ∧ (EACopy.copy cfg st src dst).1.fs.find (dst ++ [name])
          = some (.file sz 0)
      ∧ (EACopy.copy2 cfg st src dst).2 = .ok ()
      ∧ (EACopy.copy2 cfg st src dst).1.fs.find (dst ++ [name])
          = some (.file sz m))
    ∧ (fileNameOf src = none →
      (EACopy.copy cfg st src dst).2 = .error (.invalidArgument src)
      ∧ (EACopy.copy2 cfg st src dst).2 = .error (.invalidArgument src)) := by
  have hex : st.fs.pathExists src = true := FS.pathExists_of_find hsrc
  have hnd : st.fs.isDir src = false := FS.isDir_eq_false_of_file hsrc
  have hpd : st.fs.pathExists dst = true := FS.pathExists_of_isDir hdst
  constructor
  · intro name hname
    unfold EACopy.copy EACopy.copy2 EACopy.resolveDst EACopy.ensureParent
    simp only [St.emit, hex, hnd, hdst, hname, parentOf_concat, hpd,
      Bool.not_true, Bool.false_eq_true, if_false, if_true]
    simp [copy_file, St.emit, hsrc, FS.find_insert_self, Except.map]
  · intro hname
    unfold EACopy.copy EACopy.copy2 EACopy.resolveDst
    simp [St.emit, hex, hnd, hdst, hname]

/-- C9, witnessed at a concrete input: a 5-byte file copied into an existing
directory destination. -/
theorem copy_into_directory_witness :
    ((∀ name, fileNameOf ["a"] = some name →
      (EACopy.copy (Config.default 4) ⟨⟨[(["a"], .file 5 3), (["dd"], .dir)]⟩,
          []⟩ ["a"] ["dd"]).2 = .ok ()
      ∧ (EACopy.copy (Config.default 4) ⟨⟨[(["a"], .file 5 3), (["dd"], .dir)]⟩,
          []⟩ ["a"] ["dd"]).1.fs.find (["dd"] ++ [name]) = some (.file 5 0)
      ∧ (EACopy.copy2 (Config.default 4) ⟨⟨[(["a"], .file 5 3), (["dd"], .dir)]⟩,
          []⟩ ["a"] ["dd"]).2 = .ok ()
      ∧ (EACopy.copy2 (Config.default 4) ⟨⟨[(["a"], .file 5 3), (["dd"], .dir)]⟩,
          []⟩ ["a"] ["dd"]).1.fs.find (["dd"] ++ [name]) = some (.file 5 3))
    ∧ (fileNameOf ["a"] = none →
      (EACopy.copy (Config.default 4) ⟨⟨[(["a"], .file 5 3), (["dd"], .dir)]⟩,
          []⟩ ["a"] ["dd"]).2 = .error (.invalidArgument ["a"])
      ∧ (EACopy.copy2 (Config.default 4) ⟨⟨[(["a"], .file 5 3), (["dd"], .dir)]⟩,
          []⟩ ["a"] ["dd"]).2 = .error (.invalidArgument ["a"]))) :=
  copy_into_directory (Config.default 4)
    ⟨⟨[(["a"], .file 5 3), (["dd"], .dir)]⟩, []⟩ ["a"] ["dd"] 5 3 (by decide)
    (by decide)

/-! ## Wide-string round trip (claim on src/utils.rs) -/

/-- Every UTF-16 code unit of a non-NUL character is nonzero. -/
theorem encodeUtf16Char_ne_zero {c : Char} (hc : c ≠ '\x00') :
    ∀ u ∈ encodeUtf16Char c, u ≠ 0 := by
  intro u hu
  unfold encodeUtf16Char at hu
  by_cases h : c.toNat < 0x10000
  · simp only [h, if_true, List.mem_singleton] at hu
    subst hu
    intro h0
    apply hc
    rw [← Char.ofNat_toNat c, h0]
  · simp only [h, if_false, List.mem_cons, List.mem_singleton,
      List.not_mem_nil, or_false] at hu
    rcases hu with hu | hu <;> omega

/-- Truncating at the NUL terminator recovers the code units when none of
them is zero. -/
theorem takeWhile_append_zero {l t : List Nat} (h : ∀ u ∈ l, u ≠ 0) :
    (l ++ 0 :: t).takeWhile (fun u => u != 0) = l := by
  induction l with
  | nil => simp
  | cons a l ih =>
    have ha : (a != 0) = true := by
      have := h a (List.mem_cons_self a l)
      simpa using this
    simp only [List.cons_append, List.takeWhile_cons, ha, if_true]
    rw [ih (fun u hu => h u (List.mem_cons_of_mem a hu))]

/-- Unfolding of the decoder on a nonempty code-unit sequence. -/
theorem decodeUtf16_cons (u : Nat) (rest : List Nat) :
    decodeUtf16 (u :: rest) =
      if u < 0xD800 ∨ 0xE000 ≤ u then
        (decodeUtf16 rest).map (fun cs => Char.ofNat u :: cs)
      else if u < 0xDC00 then
        match rest with
        | [] => none
        | l :: rest' =>
          if 0xDC00 ≤ l ∧ l < 0xE000 then
            (decodeUtf16 rest').map
              (fun cs =>
                Char.ofNat (0x10000 + (u - 0xD800) * 0x400 + (l - 0xDC00)) :: cs)
          else none
      else none := by
  rw [decodeUtf16.eq_def]

/-- Decoding the code units of one character followed by anything prepends
that character to the decoded remainder. -/
theorem decodeUtf16_encode_cons (c : Char) (rest : List Nat) :
    decodeUtf16 (encodeUtf16Char c ++ rest)
      = (decodeUtf16 rest).map (fun cs => c :: cs) := by
  have hv : c.toNat < 0xD800 ∨ (0xDFFF < c.toNat ∧ c.toNat < 0x110000) :=
    c.valid
  unfold encodeUtf16Char
  by_cases h : c.toNat < 0x10000
  · simp only [h, if_true, List.cons_append, List.nil_append]
    have hcond : c.toNat < 0xD800 ∨ 0xE000 ≤ c.toNat := by omega
    rw [decodeUtf16_cons, if_pos hcond, Char.ofNat_toNat]
  · simp only [h, if_false, List.cons_append, List.nil_append]
    have hdiv : (c.toNat - 0x10000) / 0x400 < 0x400 := by omega
    have hcond1 : ¬ (0xD800 + (c.toNat - 0x10000) / 0x400 < 0xD800
        ∨ 0xE000 ≤ 0xD800 + (c.toNat - 0x10000) / 0x400) := by omega
    have hcond2 : 0xD800 + (c.toNat - 0x10000) / 0x400 < 0xDC00 := by omega
    have hcond3 : 0xDC00 ≤ 0xDC00 + (c.toNat - 0x10000) % 0x400
        ∧ 0xDC00 + (c.toNat - 0x10000) % 0x400 < 0xE000 := ⟨by omega, by omega⟩
    rw [decodeUtf16_cons, if_neg hcond1, if_pos hcond2]
    show (if 0xDC00 ≤ 0xDC00 + (c.toNat - 0x10000) % 0x400
            ∧ 0xDC00 + (c.toNat - 0x10000) % 0x400 < 0xE000 then
          (decodeUtf16 rest).map
            (fun cs =>
              Char.ofNat (0x10000
                + (0xD800 + (c.toNat - 0x10000) / 0x400 - 0xD800) * 0x400
                + (0xDC00 + (c.toNat - 0x10000) % 0x400 - 0xDC00)) :: cs)
        else none)
      = (decodeUtf16 rest).map (fun cs => c :: cs)
    rw [if_pos hcond3]
    have hchar : Char.ofNat (0x10000
        + (0xD800 + (c.toNat - 0x10000) / 0x400 - 0xD800) * 0x400
        + (0xDC00 + (c.toNat - 0x10000) % 0x400 - 0xDC00)) = c := by
      have harg : 0x10000
          + (0xD800 + (c.toNat - 0x10000) / 0x400 - 0xD800) * 0x400
          + (0xDC00 + (c.toNat - 0x10000) % 0x400 - 0xDC00) = c.toNat := by
        omega
      rw [harg, Char.ofNat_toNat]
    rw [hchar]

/-- Decoding the concatenated code units of a character list recovers the
list. -/
theorem decodeUtf16_units (s : List Char) :
    decodeUtf16 ((s.map encodeUtf16Char).flatten) = some s := by
  induction s with
  | nil => rfl
  | cons c s ih =>
    simp only [List.map_cons, List.flatten_cons]
    rw [decodeUtf16_encode_cons, ih]
    rfl

/-- C10: for every string containing no NUL character, converting to a
Windows wide string and back is the identity:
`from_wide_string (to_wide_string s) = some s`. -/
theorem wide_string_roundtrip (s : List Char) (h : '\x00' ∉ s) :
    from_wide_string (to_wide_string s) = some s := by
  have hnz : ∀ u ∈ (s.map encodeUtf16Char).flatten, u ≠ 0 := by
    intro u hu
    rw [List.mem_flatten] at hu
    obtain ⟨l, hl, hul⟩ := hu
    rw [List.mem_map] at hl
    obtain ⟨c, hc, rfl⟩ := hl
    have hcne : c ≠ '\x00' := fun h0 => h (h0 ▸ hc)
    exact encodeUtf16Char_ne_zero hcne u hul
  unfold from_wide_string to_wide_string
  calc decodeUtf16 (((s.map encodeUtf16Char).flatten
          ++ 0 :: []).takeWhile (fun u => u != 0))
      = decodeUtf16 ((s.map encodeUtf16Char).flatten) := by
        rw [takeWhile_append_zero hnz]
    _ = some s := decodeUtf16_units s

/-- C10, witnessed at a concrete input. -/
theorem wide_string_roundtrip_witness :
    '\x00' ∉ (['a', 'b'] : List Char)
    ∧ from_wide_string (to_wide_string ['a', 'b']) = some ['a', 'b'] :=
  ⟨by decide, wide_string_roundtrip ['a', 'b'] (by decide)⟩

end PyEACopy
